import Mathlib

/-!
# Verification of the Text2Speech inference core (`backend/model.py`)

This file shallowly embeds the two inference pipelines of `backend/model.py`:

* `predict_params`: text → 3 features → `Linear(3,16) → ReLU → Linear(16,2) → Sigmoid`
  → affine map into `[0.5, 2.0]` → `round(·, 2)`.  The network weights are randomly
  initialized once per process, so they are modelled as parameters.
* `detect_language`: text → 6 features → fixed hand-written `Linear(6,4)` (zero bias)
  → softmax → `round(·, 3)` scores keyed by `["en","hi","es","hinglish"]`, label from
  `argmax` of the raw probabilities.

Modelling conventions:
* Python strings are `String` (a list of Unicode scalar values, matching `len`/iteration
  over code points); Python floats are modelled as exact rationals (feature extraction,
  weights) and reals (sigmoid/softmax/rounding).
* `str.lower` and `str.isalnum` are modelled on the character ranges this code base
  exercises (ASCII, Latin-1 letters, the Devanagari block); characters outside those
  ranges are lowercase-invariant and non-alphanumeric in the model.
* Python `round` rounds half to even; `round(x, k)` is modelled as
  `roundHalfEven (10^k * x) / 10^k` on ℝ.
-/

namespace T2S

/-! ## Characters: Python `str.lower`, character classes -/

/-- Python `str.lower`, restricted to ASCII and Latin-1 letters: `A`–`Z` and `À`–`Þ`
(except `×`) are shifted down by 32 code points; every other character is unchanged. -/
def pyLower (c : Char) : Char :=
  if ('A' ≤ c ∧ c ≤ 'Z') ∨ (('À' ≤ c ∧ c ≤ 'Þ') ∧ c ≠ '×') then
    Char.ofNat (c.toNat + 32)
  else c

/-- `ch.lower() in "aeiou"` from `_text_features`. -/
def isVowel (c : Char) : Bool := pyLower c ∈ ['a', 'e', 'i', 'o', 'u']

/-- `ch in ",.;!?"` from `_text_features`. -/
def isPunct (c : Char) : Bool := c ∈ [',', '.', ';', '!', '?']

/-- `'a' <= ch.lower() <= 'z' or ch in "áéíóúüñ"` from `_lang_features`.  Note the second
disjunct tests the original character against the lowercase accented letters only. -/
def isLatinLetter (c : Char) : Bool :=
  ('a' ≤ pyLower c ∧ pyLower c ≤ 'z') ∨ c ∈ ['á', 'é', 'í', 'ó', 'ú', 'ü', 'ñ']

/-- `'ऀ' <= ch <= 'ॿ'` from `_lang_features` (the Devanagari block). -/
def isDevanagari (c : Char) : Bool := 'ऀ' ≤ c ∧ c ≤ 'ॿ'

/-- Python `str.isalnum`, restricted to the scripts this code base exercises: ASCII
letters and digits, and in the Devanagari block the letters (U+0904–U+0939, U+0950,
U+0958–U+0961, U+0971–U+097F) and digits (U+0966–U+096F); combining signs and
punctuation of that block, and all other characters, are non-alphanumeric. -/
def pyIsAlnum (c : Char) : Bool :=
  ('a' ≤ c ∧ c ≤ 'z') ∨ ('A' ≤ c ∧ c ≤ 'Z') ∨ ('0' ≤ c ∧ c ≤ '9') ∨
  (0x904 ≤ c.toNat ∧ c.toNat ≤ 0x939) ∨ c.toNat = 0x950 ∨
  (0x958 ≤ c.toNat ∧ c.toNat ≤ 0x961) ∨ (0x966 ≤ c.toNat ∧ c.toNat ≤ 0x96F) ∨
  (0x971 ≤ c.toNat ∧ c.toNat ≤ 0x97F)

/-! ## Tokenization used by `_lang_features` -/

/-- Append a pending token unless it is empty (Python `str.split()` discards empties). -/
def pushTok (cur : List Char) (toks : List (List Char)) : List (List Char) :=
  if cur = [] then toks else cur :: toks

/-- Split a character list on spaces, discarding empty tokens. -/
def splitWS (l : List Char) : List (List Char) :=
  let p := l.foldr
    (fun c acc =>
      if c = ' ' then (pushTok acc.2 acc.1, ([] : List Char)) else (acc.1, c :: acc.2))
    ([], [])
  pushTok p.2 p.1

/-- `''.join(ch if ch.isalnum() else ' ' for ch in t.lower()).split()`: lower-case,
replace non-alphanumeric characters by spaces, split on whitespace. -/
def tokenize (t : List Char) : List (List Char) :=
  splitWS ((t.map pyLower).map (fun c => if pyIsAlnum c then c else ' '))

/-- The fixed `hinglish_kw` lexicon of `_lang_features` (24 romanized tokens). -/
def hinglishKw : List String :=
  ["hai", "hain", "nahi", "haan", "kyu", "kyun", "kya", "kaise", "kab", "kal",
   "bhai", "dost", "bhen", "acha", "achha", "accha", "theek", "thik", "haanji",
   "yaar", "sab", "bahut", "thoda", "zyada"]

/-! ## Feature extractors -/

/-- `min(n / 200.0, 1.0)` on a character count `n`. -/
def lengthNorm (n : ℕ) : ℚ := min ((n : ℚ) / 200) 1

/-- `vowel_ratio` of `_text_features` (only meaningful for nonempty text). -/
def vowelRatio (text : String) : ℚ :=
  (text.data.countP isVowel : ℚ) / text.data.length

/-- `punct_ratio` of `_text_features` (only meaningful for nonempty text). -/
def punctRatio (text : String) : ℚ :=
  (text.data.countP isPunct : ℚ) / text.data.length

/-- `_text_features` from `backend/model.py`: `[length_norm, vowel_ratio, punct_ratio]`,
with an explicit all-zero result for the empty string. -/
def textFeatures (text : String) : Fin 3 → ℚ :=
  if text.data.length = 0 then ![0, 0, 0]
  else ![lengthNorm text.data.length, vowelRatio text, punctRatio text]

/-- `n = max(len(t), 1)` of `_lang_features`. -/
def langN (text : String) : ℕ := max text.data.length 1

/-- `latin_ratio` of `_lang_features`. -/
def latinRatio (text : String) : ℚ :=
  (text.data.countP isLatinLetter : ℚ) / langN text

/-- `devanagari_ratio` of `_lang_features`. -/
def devanagariRatio (text : String) : ℚ :=
  (text.data.countP isDevanagari : ℚ) / langN text

/-- `tilde = t.count('ñ') + t.count('Ñ')` of `_lang_features`. -/
def tildeCount (text : String) : ℕ :=
  text.data.countP (fun c => c = 'ñ' ∨ c = 'Ñ')

/-- `exclam = t.count('!')` of `_lang_features`. -/
def exclaimCount (text : String) : ℕ := text.data.countP (fun c => c = '!')

/-- `hinglish_kw_ratio` of `_lang_features`:
`(kw_matches / max(len(tokens), 1)) if tokens else 0.0`. -/
def hinglishKwRatio (text : String) : ℚ :=
  if tokenize text.data = [] then 0
  else ((tokenize text.data).countP (fun w => hinglishKw.contains (String.mk w)) : ℚ) /
    (max (tokenize text.data).length 1 : ℕ)

/-- `_lang_features` from `backend/model.py`:
`[latin_ratio, devanagari_ratio, tilde_count, exclaim_count, length_norm,
hinglish_kw_ratio]` with `n = max(len(t), 1)`. -/
def langFeatures (text : String) : Fin 6 → ℚ :=
  ![latinRatio text, devanagariRatio text, (tildeCount text : ℚ),
    (exclaimCount text : ℚ), lengthNorm (langN text), hinglishKwRatio text]

/-! ## Language scorer: hand-written weights, logits, labels -/

/-- The hand-crafted weight matrix of `TinyLangNN` (4 classes × 6 features); the bias
vector is zero. -/
def langW : Fin 4 → Fin 6 → ℚ :=
  ![![2, -2, 0.2, 0.3, 0.1, -0.2],
    ![-2, 3, 0, 0, 0.1, -0.5],
    ![1.5, -2, 1.2, 0, 0.1, -0.2],
    ![1.5, -1.5, 0, 0.1, 0.1, 2.5]]

/-- Logits of the language classifier for a given weight matrix (zero bias). -/
def langLogitsW (W : Fin 4 → Fin 6 → ℚ) (text : String) : Fin 4 → ℚ :=
  fun i => ∑ j, W i j * langFeatures text j

/-- Logits of `TinyLangNN` on the fixed hand-written weights. -/
def langLogits (text : String) : Fin 4 → ℚ := langLogitsW langW text

/-- `_LANG_LABELS = ["en", "hi", "es", "hinglish"]`. -/
def LANG_LABELS : Fin 4 → String := !["en", "hi", "es", "hinglish"]

/-! ## Rounding (Python `round`) -/

open Classical in
/-- Round a real number to the nearest integer, ties to the even integer: the rounding
mode of Python `round`. -/
noncomputable def rhe (x : ℝ) : ℤ :=
  if Int.fract x < 1 / 2 then ⌊x⌋
  else if 1 / 2 < Int.fract x then ⌊x⌋ + 1
  else if Even ⌊x⌋ then ⌊x⌋ else ⌊x⌋ + 1

/-- Python `round(x, 2)`. -/
noncomputable def round2 (x : ℝ) : ℝ := (rhe (100 * x) : ℝ) / 100

/-- Python `round(x, 3)`. -/
noncomputable def round3 (x : ℝ) : ℝ := (rhe (1000 * x) : ℝ) / 1000

/-! ## Pitch/rate pipeline -/

/-- `max(x, 0)`: the ReLU activation. -/
def relu (x : ℝ) : ℝ := max x 0

/-- The logistic squashing function `1 / (1 + exp (-x))`, mapping into `(0, 1)`. -/
noncomputable def sigmoid (x : ℝ) : ℝ := 1 / (1 + Real.exp (-x))

/-- Weights of `PitchRateNN` (`Linear(3,16) → ReLU → Linear(16,2) → Sigmoid`), randomly
initialized once per process and never mutated; modelled as parameters. -/
structure PitchRateWeights where
  w1 : Fin 16 → Fin 3 → ℝ
  b1 : Fin 16 → ℝ
  w2 : Fin 2 → Fin 16 → ℝ
  b2 : Fin 2 → ℝ

/-- The forward pass of `PitchRateNN` on a 3-feature vector. -/
noncomputable def pitchRateNN (W : PitchRateWeights) (x : Fin 3 → ℝ) : Fin 2 → ℝ :=
  fun o => sigmoid ((∑ h, W.w2 o h * relu ((∑ j, W.w1 h j * x j) + W.b1 h)) + W.b2 o)

/-- `predict_params` from `backend/model.py`:
`pitch = round(0.5 + y0 * 1.5, 2)`, `rate = round(0.5 + y1 * 1.5, 2)`. -/
noncomputable def predict_params (W : PitchRateWeights) (text : String) : ℝ × ℝ :=
  (round2 (0.5 + pitchRateNN W (fun j => (textFeatures text j : ℝ)) 0 * 1.5),
   round2 (0.5 + pitchRateNN W (fun j => (textFeatures text j : ℝ)) 1 * 1.5))

/-! ## Language pipeline -/

/-- Softmax over 4 logits: `p i = exp (l i) / Σ j, exp (l j)`. -/
noncomputable def softmax4 (l : Fin 4 → ℝ) : Fin 4 → ℝ :=
  fun i => Real.exp (l i) / ∑ j, Real.exp (l j)

open Classical in
/-- `torch.argmax` on a 4-vector: the index of the first maximal entry. -/
noncomputable def argmax4 (p : Fin 4 → ℝ) : Fin 4 :=
  if p 1 ≤ p 0 ∧ p 2 ≤ p 0 ∧ p 3 ≤ p 0 then 0
  else if p 2 ≤ p 1 ∧ p 3 ≤ p 1 then 1
  else if p 3 ≤ p 2 then 2
  else 3

/-- The softmax probabilities of the language classifier for a weight matrix `W`. -/
noncomputable def langProbsW (W : Fin 4 → Fin 6 → ℚ) (text : String) : Fin 4 → ℝ :=
  softmax4 (fun i => (langLogitsW W text i : ℝ))

/-- `detect_language` with the weight matrix as a parameter: the label is
`_LANG_LABELS[argmax(probs)]`, the scores map each label index to its probability
rounded to 3 decimals. -/
noncomputable def detect_languageW (W : Fin 4 → Fin 6 → ℚ) (text : String) :
    String × (Fin 4 → ℝ) :=
  (LANG_LABELS (argmax4 (langProbsW W text)), fun i => round3 (langProbsW W text i))

/-- The softmax probabilities of `TinyLangNN` on the fixed hand-written weights. -/
noncomputable def langProbs (text : String) : Fin 4 → ℝ := langProbsW langW text

/-- `detect_language` from `backend/model.py`. -/
noncomputable def detect_language (text : String) : String × (Fin 4 → ℝ) :=
  detect_languageW langW text

/-! ## Falsy-input normalization and process state -/

/-- Python `text or ""` on an optional string argument: `None` normalizes to `""`. -/
def orEmpty : Option String → String
  | none => ""
  | some s => s

/-- `predict_params` when its argument may be `None`: `_text_features` first normalizes
the input via `text or ""`. -/
noncomputable def predict_paramsOpt (W : PitchRateWeights) (t : Option String) : ℝ × ℝ :=
  predict_params W (orEmpty t)

/-- `detect_language` when its argument may be `None`: `_lang_features` first normalizes
the input via `text or ""`. -/
noncomputable def detect_languageOpt (t : Option String) : String × (Fin 4 → ℝ) :=
  detect_language (orEmpty t)

/-- The per-process mutable environment read by the two public functions: the weight
tensors of `PitchRateNN` (randomly initialized at startup) and of `TinyLangNN`.
Calls run under `torch.no_grad()` and contain no assignment to either module. -/
structure ProcState where
  prW : PitchRateWeights
  lngW : Fin 4 → Fin 6 → ℚ

/-- A call of `predict_params`, as a state transition: it returns its result together
with the process state it leaves behind (unchanged, since the code never writes). -/
noncomputable def callPredictParams (s : ProcState) (t : String) : (ℝ × ℝ) × ProcState :=
  (predict_params s.prW t, s)

/-- A call of `detect_language`, as a state transition: it returns its result together
with the process state it leaves behind (unchanged, since the code never writes). -/
noncomputable def callDetectLanguage (s : ProcState) (t : String) :
    (String × (Fin 4 → ℝ)) × ProcState :=
  (detect_languageW s.lngW t, s)

/-! ## Definitions for the verification arguments -/

/-- The latin-letter counter as claim C7 words it (modelled from the claim's text, for
comparison with the code): every ASCII letter case-insensitively plus the six accented
letters in either case. -/
def latinCountClaimed (text : String) : ℕ :=
  text.data.countP (fun c =>
    ('a' ≤ pyLower c ∧ pyLower c ≤ 'z') ∨ pyLower c ∈ ['á', 'é', 'í', 'ó', 'ú', 'ü', 'ñ'])

/-- The Hermite integral `∫ x in 0..1, (x (1 - x))^n exp (r x)`. -/
noncomputable def HI (n : ℕ) (r : ℝ) : ℝ :=
  ∫ x in (0:ℝ)..1, (x * (1 - x)) ^ n * Real.exp (r * x)

/-- The integer coefficient of `exp a` in the closed form of `n! ⁻¹`-scaled Hermite
integrals. -/
def hermA (a : ℤ) : ℕ → ℤ
  | 0 => 1
  | 1 => a - 2
  | n + 2 => a ^ 2 * hermA a n - 2 * (2 * n + 3) * hermA a (n + 1)

/-- The integer constant term in the closed form of the Hermite integrals. -/
def hermB (a : ℤ) : ℕ → ℤ
  | 0 => -1
  | 1 => a + 2
  | n + 2 => a ^ 2 * hermB a n - 2 * (2 * n + 3) * hermB a (n + 1)

/-! ## Vector-literal indexing -/

theorem vec6_zero {α : Type} (a b c d e f : α) : ![a, b, c, d, e, f] 0 = a := rfl

theorem vec6_one {α : Type} (a b c d e f : α) : ![a, b, c, d, e, f] 1 = b := rfl

theorem vec6_two {α : Type} (a b c d e f : α) : ![a, b, c, d, e, f] 2 = c := rfl

theorem vec6_three {α : Type} (a b c d e f : α) : ![a, b, c, d, e, f] 3 = d := rfl

theorem vec6_four {α : Type} (a b c d e f : α) : ![a, b, c, d, e, f] 4 = e := rfl

theorem vec6_five {α : Type} (a b c d e f : α) : ![a, b, c, d, e, f] 5 = f := rfl

theorem vec4_zero {α : Type} (a b c d : α) : ![a, b, c, d] 0 = a := rfl

theorem vec4_one {α : Type} (a b c d : α) : ![a, b, c, d] 1 = b := rfl

theorem vec4_two {α : Type} (a b c d : α) : ![a, b, c, d] 2 = c := rfl

theorem vec4_three {α : Type} (a b c d : α) : ![a, b, c, d] 3 = d := rfl

/-! ## Lemmas on rounding -/

theorem floor_le_rhe (x : ℝ) : ⌊x⌋ ≤ rhe x := by
  rw [rhe]; split_ifs <;> omega

theorem rhe_le_floor_add_one (x : ℝ) : rhe x ≤ ⌊x⌋ + 1 := by
  rw [rhe]; split_ifs <;> omega

theorem rhe_le (x : ℝ) : (rhe x : ℝ) ≤ x + 1 / 2 := by
  have h0 := Int.fract_nonneg x
  have h1 := Int.fract_lt_one x
  have hf : (⌊x⌋ : ℝ) = x - Int.fract x := by rw [← Int.self_sub_fract]
  rw [rhe]; split_ifs <;> push_cast <;> linarith

theorem le_rhe (x : ℝ) : x - 1 / 2 ≤ (rhe x : ℝ) := by
  have h0 := Int.fract_nonneg x
  have h1 := Int.fract_lt_one x
  have hf : (⌊x⌋ : ℝ) = x - Int.fract x := by rw [← Int.self_sub_fract]
  rw [rhe]; split_ifs <;> push_cast <;> linarith

theorem rhe_intCast (k : ℤ) : rhe (k : ℝ) = k := by
  rw [rhe]
  simp [Int.fract_intCast, Int.floor_intCast]

theorem rhe_mono : Monotone rhe := by
  intro x y hxy
  have hfl : ⌊x⌋ ≤ ⌊y⌋ := Int.floor_mono hxy
  rcases lt_or_eq_of_le hfl with hlt | heq
  · calc rhe x ≤ ⌊x⌋ + 1 := rhe_le_floor_add_one x
      _ ≤ ⌊y⌋ := by omega
      _ ≤ rhe y := floor_le_rhe y
  · have hfr : Int.fract x ≤ Int.fract y := by
      unfold Int.fract
      rw [heq]
      linarith
    unfold rhe
    rw [heq]
    split_ifs <;> first | omega | (exfalso; linarith)

/-! ## Lemmas on the sigmoid and softmax -/

theorem sigmoid_pos (x : ℝ) : 0 < sigmoid x := by
  have := Real.exp_pos (-x)
  rw [sigmoid]
  positivity

theorem sigmoid_lt_one (x : ℝ) : sigmoid x < 1 := by
  rw [sigmoid, div_lt_one (by positivity)]
  linarith [Real.exp_pos (-x)]

theorem sum_exp4_pos (l : Fin 4 → ℝ) : 0 < ∑ j, Real.exp (l j) :=
  Finset.sum_pos (fun _ _ => Real.exp_pos _) Finset.univ_nonempty

theorem softmax4_pos (l : Fin 4 → ℝ) (i : Fin 4) : 0 < softmax4 l i :=
  div_pos (Real.exp_pos _) (sum_exp4_pos l)

theorem softmax4_lt_one (l : Fin 4 → ℝ) (i : Fin 4) : softmax4 l i < 1 := by
  rw [softmax4, div_lt_one (sum_exp4_pos l)]
  obtain ⟨j, hj⟩ := exists_ne i
  exact Finset.single_lt_sum hj (Finset.mem_univ i) (Finset.mem_univ j)
    (Real.exp_pos _) (fun k _ _ => (Real.exp_pos _).le)

theorem softmax4_sum (l : Fin 4 → ℝ) : ∑ i, softmax4 l i = 1 := by
  simp only [softmax4]
  rw [← Finset.sum_div]
  exact div_self (ne_of_gt (sum_exp4_pos l))

theorem softmax4_lt (l : Fin 4 → ℝ) {i j : Fin 4} (h : l i < l j) :
    softmax4 l i < softmax4 l j := by
  have hS := sum_exp4_pos l
  simp only [softmax4]
  rw [div_lt_div_iff₀ hS hS]
  exact mul_lt_mul_of_pos_right (Real.exp_lt_exp.mpr h) hS

theorem softmax4_le (l : Fin 4 → ℝ) {i j : Fin 4} (h : l i ≤ l j) :
    softmax4 l i ≤ softmax4 l j := by
  have hS := sum_exp4_pos l
  simp only [softmax4]
  rw [div_le_div_iff₀ hS hS]
  exact mul_le_mul_of_nonneg_right (Real.exp_le_exp.mpr h) hS.le

theorem softmax4_const (c : ℝ) (i : Fin 4) : softmax4 (fun _ => c) i = 1 / 4 := by
  simp only [softmax4, Finset.sum_const, Finset.card_univ, Fintype.card_fin,
    nsmul_eq_mul, Nat.cast_ofNat]
  rw [div_eq_div_iff (by positivity) (by norm_num)]
  ring

/-! ## Irrationality of `exp` at nonzero rationals

Needed for the rounding tolerance of the language scores: the only way the four rounded
probabilities could drift a full `2/1000` from `1` is for every probability to sit
exactly on a rounding tie, which would force `exp` of some nonzero rational logit
difference to be rational.  The proof is Hermite's: analyse the integrals
`∫ x in 0..1, (x (1 - x))^n exp (r x)` through a two-step recursion. -/

theorem hasDerivAt_expMul (r x : ℝ) :
    HasDerivAt (fun y => Real.exp (r * y)) (Real.exp (r * x) * r) x := by
  simpa using ((hasDerivAt_id x).const_mul r).exp

theorem HI_zero (r : ℝ) : HI 0 r * r = Real.exp r - 1 := by
  have h : ∫ x in (0:ℝ)..1, Real.exp (r * x) * r =
      Real.exp (r * 1) - Real.exp (r * 0) := by
    refine intervalIntegral.integral_eq_sub_of_hasDerivAt
      (fun x _ => hasDerivAt_expMul r x) ?_
    exact Continuous.intervalIntegrable (by fun_prop) _ _
  rw [HI]
  simp only [pow_zero, one_mul]
  rw [← intervalIntegral.integral_mul_const, h]
  simp

theorem HI_one (r : ℝ) : HI 1 r * r ^ 3 = (r - 2) * Real.exp r + (r + 2) := by
  have key : ∀ x : ℝ, HasDerivAt
      (fun y => (-(r^2) * y^2 + (r^2 + 2*r) * y - (r + 2)) * Real.exp (r * y))
      ((x * (1 - x)) * Real.exp (r * x) * r ^ 3) x := by
    intro x
    have h1 : HasDerivAt (fun y : ℝ => y ^ 2) (2 * x) x := by
      simpa using hasDerivAt_pow 2 x
    have hP : HasDerivAt (fun y : ℝ => -(r^2) * y^2 + (r^2 + 2*r) * y - (r + 2))
        (-(r^2) * (2*x) + (r^2 + 2*r)) x := by
      simpa using ((h1.const_mul (-(r^2))).add ((hasDerivAt_id x).const_mul
        (r^2 + 2*r))).sub_const (r + 2)
    have h2 := hP.mul (hasDerivAt_expMul r x)
    convert h2 using 1
    ring
  have h2 : ∫ x in (0:ℝ)..1, (x * (1 - x)) * Real.exp (r * x) * r ^ 3 =
      (-(r^2) * 1^2 + (r^2 + 2*r) * 1 - (r + 2)) * Real.exp (r * 1) -
        (-(r^2) * 0^2 + (r^2 + 2*r) * 0 - (r + 2)) * Real.exp (r * 0) := by
    refine intervalIntegral.integral_eq_sub_of_hasDerivAt (fun x _ => key x) ?_
    exact Continuous.intervalIntegrable (by fun_prop) _ _
  rw [HI]
  simp only [pow_one]
  rw [← intervalIntegral.integral_mul_const, h2]
  simp [Real.exp_zero]
  ring

theorem HI_rec (n : ℕ) (r : ℝ) :
    HI (n + 2) r * r ^ 2 =
      (n + 1) * (n + 2) * HI n r - 2 * (n + 2) * (2 * n + 3) * HI (n + 1) r := by
  let g : ℝ → ℝ := fun x => x * (1 - x)
  let u₁ : ℝ → ℝ := fun x => g x ^ (n + 2)
  let u₁' : ℝ → ℝ := fun x => (n + 2) * g x ^ (n + 1) * (1 - 2 * x)
  let v : ℝ → ℝ := fun x => Real.exp (r * x)
  let v' : ℝ → ℝ := fun x => Real.exp (r * x) * r
  let u₂' : ℝ → ℝ := fun x =>
    (n + 1) * (n + 2) * g x ^ n - 2 * (n + 2) * (2 * n + 3) * g x ^ (n + 1)
  have hg : ∀ x, HasDerivAt g (1 - 2 * x) x := by
    intro x
    have h := (hasDerivAt_id x).mul ((hasDerivAt_const x (1:ℝ)).sub (hasDerivAt_id x))
    convert h using 1
    simp only [id_eq]
    ring
  have hu₁ : ∀ x, HasDerivAt u₁ (u₁' x) x := by
    intro x
    have h := (hg x).pow (n + 2)
    convert h using 1
    simp only [u₁']
    push_cast
    ring
  have hu₂ : ∀ x, HasDerivAt u₁' (u₂' x) x := by
    intro x
    have ha := ((hg x).pow (n + 1)).const_mul ((n : ℝ) + 2)
    have hb := ((hasDerivAt_id x).const_mul (2:ℝ)).const_sub 1
    have h := ha.mul hb
    convert h using 1
    simp only [u₂', g, id_eq]
    push_cast
    ring
  have hv : ∀ x, HasDerivAt v (v' x) x := fun x => hasDerivAt_expMul r x
  have hcu₁' : Continuous u₁' := by fun_prop
  have hcu₂' : Continuous u₂' := by fun_prop
  have hcv' : Continuous v' := by fun_prop
  have hend1 : u₁ 1 = 0 := by simp [u₁, g]
  have hend0 : u₁ 0 = 0 := by simp [u₁, g]
  have hend1' : u₁' 1 = 0 := by simp [u₁', g]
  have hend0' : u₁' 0 = 0 := by simp [u₁', g]
  have habsorb₁ : (∫ x in (0:ℝ)..1, u₁ x * v' x) =
      (∫ x in (0:ℝ)..1, u₁ x * v x) * r := by
    rw [← intervalIntegral.integral_mul_const]
    exact intervalIntegral.integral_congr (fun x _ => by simp only [u₁, v, v']; ring)
  have habsorb₂ : (∫ x in (0:ℝ)..1, u₁' x * v' x) =
      (∫ x in (0:ℝ)..1, u₁' x * v x) * r := by
    rw [← intervalIntegral.integral_mul_const]
    exact intervalIntegral.integral_congr (fun x _ => by simp only [v, v']; ring)
  calc HI (n + 2) r * r ^ 2
      = (∫ x in (0:ℝ)..1, u₁ x * v x) * r ^ 2 := rfl
    _ = (∫ x in (0:ℝ)..1, u₁ x * v' x) * r := by
        rw [habsorb₁]
        ring
    _ = (u₁ 1 * v 1 - u₁ 0 * v 0 - ∫ x in (0:ℝ)..1, u₁' x * v x) * r := by
        rw [intervalIntegral.integral_mul_deriv_eq_deriv_mul (fun x _ => hu₁ x)
          (fun x _ => hv x) (hcu₁'.intervalIntegrable _ _) (hcv'.intervalIntegrable _ _)]
    _ = -((∫ x in (0:ℝ)..1, u₁' x * v x) * r) := by
        rw [hend1, hend0]
        ring
    _ = -(∫ x in (0:ℝ)..1, u₁' x * v' x) := by rw [habsorb₂]
    _ = -(u₁' 1 * v 1 - u₁' 0 * v 0 - ∫ x in (0:ℝ)..1, u₂' x * v x) := by
        rw [intervalIntegral.integral_mul_deriv_eq_deriv_mul (fun x _ => hu₂ x)
          (fun x _ => hv x) (hcu₂'.intervalIntegrable _ _) (hcv'.intervalIntegrable _ _)]
    _ = ∫ x in (0:ℝ)..1, u₂' x * v x := by
        rw [hend1', hend0']
        ring
    _ = ∫ x in (0:ℝ)..1, (((n:ℝ) + 1) * ((n:ℝ) + 2) * ((x * (1 - x)) ^ n * Real.exp (r * x)) -
          2 * ((n:ℝ) + 2) * (2 * (n:ℝ) + 3) * ((x * (1 - x)) ^ (n + 1) * Real.exp (r * x))) :=
        intervalIntegral.integral_congr (fun x _ => by simp only [u₂', v, g]; ring)
    _ = (((n:ℝ) + 1) * ((n:ℝ) + 2) * ∫ x in (0:ℝ)..1, ((x * (1 - x)) ^ n * Real.exp (r * x))) -
          (2 * ((n:ℝ) + 2) * (2 * (n:ℝ) + 3) *
            ∫ x in (0:ℝ)..1, ((x * (1 - x)) ^ (n + 1) * Real.exp (r * x))) := by
        rw [intervalIntegral.integral_sub
          ((continuous_const.mul (by fun_prop)).intervalIntegrable _ _)
          ((continuous_const.mul (by fun_prop)).intervalIntegrable _ _),
          intervalIntegral.integral_const_mul, intervalIntegral.integral_const_mul]
    _ = (n + 1) * (n + 2) * HI n r - 2 * (n + 2) * (2 * n + 3) * HI (n + 1) r := rfl

theorem HI_key (a : ℕ) : ∀ n : ℕ,
    HI n a * (a : ℝ) ^ (2 * n + 1) =
      (n.factorial : ℝ) * ((hermA a n : ℝ) * Real.exp a + (hermB a n : ℝ))
  | 0 => by
      have h := HI_zero (a : ℝ)
      simp only [hermA, hermB, Nat.factorial]
      push_cast
      rw [pow_one]
      rw [h]
      ring
  | 1 => by
      have h := HI_one (a : ℝ)
      simp only [hermA, hermB, Nat.factorial]
      push_cast
      rw [h]
      ring
  | n + 2 => by
      have h := HI_rec n (a : ℝ)
      have ih0 := HI_key a n
      have ih1 := HI_key a (n + 1)
      have e1 : HI (n + 2) a * (a : ℝ) ^ (2 * (n + 2) + 1) =
          (HI (n + 2) a * (a : ℝ) ^ 2) * (a : ℝ) ^ (2 * n + 3) := by ring
      have e2 : (2 * (n + 1) + 1) = 2 * n + 3 := by ring
      rw [e1, h]
      have e3 : ((n : ℝ) + 1) * ((n : ℝ) + 2) * HI n a - 2 * ((n : ℝ) + 2) *
          (2 * (n : ℝ) + 3) * HI (n + 1) a = ((n : ℝ) + 1) * ((n : ℝ) + 2) * HI n a -
          2 * ((n : ℝ) + 2) * (2 * (n : ℝ) + 3) * HI (n + 1) a := rfl
      have expand : (((n : ℝ) + 1) * ((n : ℝ) + 2) * HI n a - 2 * ((n : ℝ) + 2) *
          (2 * (n : ℝ) + 3) * HI (n + 1) a) * (a : ℝ) ^ (2 * n + 3) =
          ((n : ℝ) + 1) * ((n : ℝ) + 2) * (a : ℝ) ^ 2 * (HI n a * (a : ℝ) ^ (2 * n + 1)) -
          2 * ((n : ℝ) + 2) * (2 * (n : ℝ) + 3) * (HI (n + 1) a * (a : ℝ) ^ (2 * (n + 1) + 1)) := by
        rw [e2]
        ring
      rw [expand, ih0, ih1]
      simp only [hermA, hermB, Nat.factorial_succ]
      push_cast
      ring

theorem HI_pos (n : ℕ) (r : ℝ) : 0 < HI n r := by
  rw [HI]
  refine intervalIntegral.integral_pos (by norm_num) (Continuous.continuousOn (by fun_prop))
    ?_ ?_
  · intro x hx
    have h1 : 0 ≤ x := le_of_lt hx.1
    have h2 : x ≤ 1 := hx.2
    have h3 : 0 ≤ x * (1 - x) := mul_nonneg h1 (by linarith)
    have := Real.exp_pos (r * x)
    positivity
  · refine ⟨1/2, by norm_num, ?_⟩
    have h3 : (0:ℝ) < (1/2) * (1 - 1/2) := by norm_num
    have := Real.exp_pos (r * (1/2))
    positivity

theorem HI_le (n : ℕ) (a : ℕ) : HI n a ≤ Real.exp a := by
  rw [HI]
  have hmono : ∀ x ∈ Set.Icc (0:ℝ) 1,
      (x * (1 - x)) ^ n * Real.exp ((a:ℝ) * x) ≤ Real.exp a := by
    intro x hx
    have h1 : 0 ≤ x := hx.1
    have h2 : x ≤ 1 := hx.2
    have h3 : 0 ≤ x * (1 - x) := mul_nonneg h1 (by linarith)
    have h4 : x * (1 - x) ≤ 1 := by nlinarith
    have h5 : (x * (1 - x)) ^ n ≤ 1 := pow_le_one₀ h3 h4
    have h6 : Real.exp ((a:ℝ) * x) ≤ Real.exp a := by
      apply Real.exp_le_exp.mpr
      have ha : (0:ℝ) ≤ a := Nat.cast_nonneg a
      nlinarith
    calc (x * (1 - x)) ^ n * Real.exp ((a:ℝ) * x)
        ≤ 1 * Real.exp ((a:ℝ) * x) :=
          mul_le_mul_of_nonneg_right h5 (Real.exp_pos _).le
      _ = Real.exp ((a:ℝ) * x) := one_mul _
      _ ≤ Real.exp a := h6
  calc (∫ x in (0:ℝ)..1, (x * (1 - x)) ^ n * Real.exp ((a:ℝ) * x))
      ≤ ∫ _x in (0:ℝ)..1, Real.exp (a:ℝ) := by
        refine intervalIntegral.integral_mono_on (by norm_num)
          (Continuous.intervalIntegrable (by fun_prop) _ _)
          (intervalIntegrable_const) hmono
    _ = Real.exp a := by simp

theorem tendsto_herm_bound (c r : ℝ) :
    Filter.Tendsto (fun n : ℕ => c * r ^ (2 * n + 1) / n.factorial)
      Filter.atTop (nhds 0) := by
  have h := FloorSemiring.tendsto_pow_div_factorial_atTop (r ^ 2)
  have h2 := h.const_mul (c * r)
  rw [mul_zero] at h2
  refine h2.congr fun n => ?_
  rw [← pow_mul]
  have : r ^ (2 * n + 1) = r * r ^ (2 * n) := by ring
  rw [this]
  ring

theorem exp_nat_not_rat (a : ℕ) (ha : 0 < a) : Irrational (Real.exp a) := by
  intro hmem
  obtain ⟨c, hc⟩ := hmem
  have hden : (0:ℝ) < (c.den : ℝ) := by
    exact_mod_cast c.pos
  have hnum : (c.num : ℝ) = (c.den : ℝ) * Real.exp a := by
    rw [← hc, Rat.cast_def]
    field_simp
  have hzval : ∀ n : ℕ, ((hermA a n * c.num + c.den * hermB a n : ℤ) : ℝ) *
      (n.factorial : ℝ) = (c.den : ℝ) * (HI n a * (a : ℝ) ^ (2 * n + 1)) := by
    intro n
    rw [HI_key a n]
    push_cast
    rw [hnum]
    ring
  have hfact : ∀ n : ℕ, (0:ℝ) < (n.factorial : ℝ) := by
    intro n
    exact_mod_cast n.factorial_pos
  have hzpos : ∀ n : ℕ, 0 < hermA a n * c.num + c.den * hermB a n := by
    intro n
    have hHI := HI_pos n (a : ℝ)
    have hapow : (0:ℝ) < (a : ℝ) ^ (2 * n + 1) := by
      have : (0:ℝ) < (a : ℝ) := by exact_mod_cast ha
      positivity
    have h1 : (0:ℝ) < ((hermA a n * c.num + c.den * hermB a n : ℤ) : ℝ) *
        (n.factorial : ℝ) := by
      rw [hzval n]
      exact mul_pos hden (mul_pos hHI hapow)
    by_contra hle
    push_neg at hle
    have h2 : ((hermA a n * c.num + c.den * hermB a n : ℤ) : ℝ) ≤ 0 := by
      exact_mod_cast hle
    nlinarith [hfact n]
  have hbound : ∀ n : ℕ, ((hermA a n * c.num + c.den * hermB a n : ℤ) : ℝ) ≤
      (c.den : ℝ) * Real.exp a * (a : ℝ) ^ (2 * n + 1) / (n.factorial : ℝ) := by
    intro n
    have hHIle := HI_le n a
    have hapow : (0:ℝ) ≤ (a : ℝ) ^ (2 * n + 1) := by positivity
    rw [le_div_iff₀ (hfact n), hzval n]
    have : HI n a * (a : ℝ) ^ (2 * n + 1) ≤ Real.exp a * (a : ℝ) ^ (2 * n + 1) :=
      mul_le_mul_of_nonneg_right hHIle hapow
    nlinarith
  have htend := tendsto_herm_bound ((c.den : ℝ) * Real.exp a) (a : ℝ)
  have hev := htend.eventually_lt_const (show (0:ℝ) < 1 by norm_num)
  obtain ⟨n, hn⟩ := hev.exists
  have h1 : (1:ℝ) ≤ ((hermA a n * c.num + c.den * hermB a n : ℤ) : ℝ) := by
    exact_mod_cast hzpos n
  have h2 := hbound n
  have : ((c.den : ℝ) * Real.exp a) * (a : ℝ) ^ (2 * n + 1) / (n.factorial : ℝ) =
      (c.den : ℝ) * Real.exp a * (a : ℝ) ^ (2 * n + 1) / (n.factorial : ℝ) := by ring
  linarith [hn, h2]

theorem exp_pos_rat_not_rat (q : ℚ) (hq : 0 < q) : Irrational (Real.exp q) := by
  intro hmem
  obtain ⟨c, hc⟩ := hmem
  have hnum : (0 : ℤ) < q.num := Rat.num_pos.mpr hq
  have key : ((q.den : ℕ) : ℝ) * (q : ℝ) = ((q.num.toNat : ℕ) : ℝ) := by
    have h1 : ((q.num.toNat : ℕ) : ℝ) = ((q.num : ℤ) : ℝ) := by
      norm_cast
      exact Int.toNat_of_nonneg hnum.le
    rw [h1, Rat.cast_def]
    have h2 : ((q.den : ℕ) : ℝ) ≠ 0 := by exact_mod_cast q.den_nz
    field_simp
  have h1 : Real.exp ((q.num.toNat : ℕ) : ℝ) = ((c ^ q.den : ℚ) : ℝ) := by
    rw [← key, Real.exp_nat_mul, ← hc]
    push_cast
    ring
  have h2 : 0 < q.num.toNat := by omega
  exact exp_nat_not_rat q.num.toNat h2 ⟨c ^ q.den, h1.symm⟩

theorem exp_rat_not_rat (q : ℚ) (hq : q ≠ 0) : Irrational (Real.exp (q : ℝ)) := by
  rcases hq.lt_or_lt with hneg | hpos
  · intro hmem
    obtain ⟨c, hc⟩ := hmem
    have h1 : Real.exp ((-q : ℚ) : ℝ) = ((c⁻¹ : ℚ) : ℝ) := by
      push_cast
      rw [Real.exp_neg, ← hc]
    exact exp_pos_rat_not_rat (-q) (by linarith) ⟨c⁻¹, h1.symm⟩
  · exact exp_pos_rat_not_rat q hpos

/-- The consequence used for the language scores: if `exp` of a rational is rational,
that rational is `0`. -/
theorem rat_eq_zero_of_exp_eq_rat {d c : ℚ} (h : Real.exp (d : ℝ) = (c : ℝ)) : d = 0 := by
  by_contra hd
  exact exp_rat_not_rat d hd ⟨c, h.symm⟩

/-! ## Lemmas on argmax -/

theorem argmax4_spec (p : Fin 4 → ℝ) : ∀ j, p j ≤ p (argmax4 p) := by
  intro j
  rw [argmax4]
  split_ifs with h1 h2 h3
  · fin_cases j
    · exact le_refl _
    · exact h1.1
    · exact h1.2.1
    · exact h1.2.2
  · have h01 : p 0 ≤ p 1 := by
      by_contra hc
      push_neg at hc
      exact h1 ⟨hc.le, h2.1.trans hc.le, h2.2.trans hc.le⟩
    fin_cases j
    · exact h01
    · exact le_refl _
    · exact h2.1
    · exact h2.2
  · have h12 : p 1 ≤ p 2 := by
      by_contra hc
      push_neg at hc
      exact h2 ⟨hc.le, h3.trans hc.le⟩
    have h02 : p 0 ≤ p 2 := by
      by_contra hc
      push_neg at hc
      exact h1 ⟨h12.trans hc.le, hc.le, h3.trans hc.le⟩
    fin_cases j
    · exact h02
    · exact h12
    · exact le_refl _
    · exact h3
  · push_neg at h3
    have h23 : p 2 ≤ p 3 := h3.le
    have h13 : p 1 ≤ p 3 := by
      by_contra hc
      push_neg at hc
      exact h2 ⟨h23.trans hc.le, hc.le⟩
    have h03 : p 0 ≤ p 3 := by
      by_contra hc
      push_neg at hc
      exact h1 ⟨h13.trans hc.le, h23.trans hc.le, hc.le⟩
    fin_cases j
    · exact h03
    · exact h13
    · exact h23
    · exact le_refl _

/-! ## Derived rounding bounds -/

theorem round3_bounds {x : ℝ} (h0 : 0 ≤ x) (h1 : x ≤ 1) :
    0 ≤ round3 x ∧ round3 x ≤ 1 := by
  have ha := le_rhe (1000 * x)
  have hb := rhe_le (1000 * x)
  constructor
  · rw [round3]
    have h2 : (-1 : ℝ) < (rhe (1000 * x) : ℝ) := by linarith
    have h3 : (-1 : ℤ) < rhe (1000 * x) := by exact_mod_cast h2
    have h4 : (0 : ℝ) ≤ (rhe (1000 * x) : ℝ) := by exact_mod_cast h3
    linarith
  · rw [round3]
    have h2 : (rhe (1000 * x) : ℝ) < 1001 := by linarith
    have h3 : rhe (1000 * x) < 1001 := by exact_mod_cast h2
    have h3' : rhe (1000 * x) ≤ 1000 := by omega
    have h4 : (rhe (1000 * x) : ℝ) ≤ 1000 := by exact_mod_cast h3'
    linarith

theorem round3_mono {x y : ℝ} (h : x ≤ y) : round3 x ≤ round3 y := by
  rw [round3, round3]
  have h1 := rhe_mono (show 1000 * x ≤ 1000 * y by linarith)
  have h2 : ((rhe (1000 * x) : ℝ)) ≤ (rhe (1000 * y) : ℝ) := by exact_mod_cast h1
  linarith

theorem round3_int (k : ℤ) : round3 ((k : ℝ) / 1000) = (k : ℝ) / 1000 := by
  rw [round3]
  rw [show (1000 : ℝ) * ((k : ℝ) / 1000) = (k : ℝ) by ring, rhe_intCast]

theorem round2_mem {x : ℝ} (h1 : 1 / 2 < x) (h2 : x < 2) :
    1 / 2 ≤ round2 x ∧ round2 x ≤ 2 ∧ ∃ k : ℤ, round2 x = (k : ℝ) / 100 := by
  have ha := le_rhe (100 * x)
  have hb := rhe_le (100 * x)
  have hint1 : (50 : ℤ) ≤ rhe (100 * x) := by
    have h3 : (49 : ℝ) < (rhe (100 * x) : ℝ) := by linarith
    have h4 : (49 : ℤ) < rhe (100 * x) := by exact_mod_cast h3
    omega
  have hint2 : rhe (100 * x) ≤ 200 := by
    have h3 : (rhe (100 * x) : ℝ) < 201 := by linarith
    have h4 : rhe (100 * x) < 201 := by exact_mod_cast h3
    omega
  refine ⟨?_, ?_, ⟨rhe (100 * x), rfl⟩⟩
  · rw [round2]
    have h5 : (50 : ℝ) ≤ (rhe (100 * x) : ℝ) := by exact_mod_cast hint1
    linarith
  · rw [round2]
    have h5 : (rhe (100 * x) : ℝ) ≤ 200 := by exact_mod_cast hint2
    linarith

/-! ## Ratio and count bounds -/

theorem ratio_bounds (a b : ℕ) (h : a ≤ b) :
    0 ≤ (a : ℚ) / (max b 1 : ℕ) ∧ (a : ℚ) / (max b 1 : ℕ) ≤ 1 := by
  have h1 : (0 : ℚ) < (max b 1 : ℕ) := by
    have : 1 ≤ max b 1 := le_max_right b 1
    exact_mod_cast Nat.lt_of_lt_of_le Nat.zero_lt_one this
  constructor
  · positivity
  · rw [div_le_one h1]
    have h2 : a ≤ max b 1 := h.trans (le_max_left b 1)
    exact_mod_cast h2

theorem lengthNorm_bounds (n : ℕ) : 0 ≤ lengthNorm n ∧ lengthNorm n ≤ 1 := by
  constructor
  · rw [lengthNorm]
    have : (0 : ℚ) ≤ (n : ℚ) / 200 := by positivity
    exact le_min this zero_le_one
  · exact min_le_right _ _

theorem countP_replicate {α : Type} (p : α → Bool) (a : α) (h : p a = true) (m : ℕ) :
    (List.replicate m a).countP p = m := by
  induction m with
  | zero => rfl
  | succ k ih =>
      rw [List.replicate_succ, List.countP_cons, ih, h]
      simp

/-! ## Softmax ratios and forced uniformity -/

theorem softmax4_div (l : Fin 4 → ℝ) (i j : Fin 4) :
    softmax4 l i / softmax4 l j = Real.exp (l i) / Real.exp (l j) := by
  have hS := sum_exp4_pos l
  simp only [softmax4]
  field_simp

theorem softmax4_le_exp_sub (l : Fin 4 → ℝ) (i j : Fin 4) :
    softmax4 l i ≤ Real.exp (l i - l j) := by
  rw [softmax4, Real.exp_sub]
  refine div_le_div_of_nonneg_left (Real.exp_pos _).le (Real.exp_pos _) ?_
  exact Finset.single_le_sum (fun k _ => (Real.exp_pos (l k)).le) (Finset.mem_univ j)

theorem exp_le_of_le_neg_four {x : ℝ} (hx : x ≤ -4) : Real.exp x ≤ 34 / 1000 := by
  have h1 : Real.exp x ≤ Real.exp (-4) := Real.exp_le_exp.mpr hx
  have h4 : Real.exp 4 = Real.exp 1 ^ 4 := by
    rw [← Real.exp_nat_mul]
    norm_num
  have h3 : (2.7 : ℝ) ^ 4 ≤ Real.exp 4 := by
    rw [h4]
    have h5 := Real.exp_one_gt_d9
    have h7 : (2.7 : ℝ) ≤ Real.exp 1 := by linarith
    exact pow_le_pow_left₀ (by norm_num) h7 4
  have h6 : Real.exp (-4) ≤ 1 / (2.7 : ℝ) ^ 4 := by
    rw [Real.exp_neg]
    rw [inv_eq_one_div]
    apply div_le_div_of_nonneg_left one_pos.le (by norm_num) h3
  calc Real.exp x ≤ Real.exp (-4) := h1
    _ ≤ 1 / (2.7 : ℝ) ^ 4 := h6
    _ ≤ 34 / 1000 := by norm_num

/-- If every softmax probability of rational logits is rational, the logits are all
equal and every probability is `1/4`. -/
theorem softmax4_rat_values {l : Fin 4 → ℚ} {q : Fin 4 → ℚ}
    (h : ∀ i, softmax4 (fun i => ((l i : ℚ) : ℝ)) i = ((q i : ℚ) : ℝ)) :
    ∀ i, softmax4 (fun i => ((l i : ℚ) : ℝ)) i = 1 / 4 := by
  have heq : ∀ i j, l i = l j := by
    intro i j
    have hpj : (0 : ℝ) < softmax4 (fun i => ((l i : ℚ) : ℝ)) j := softmax4_pos _ j
    have hqj : q j ≠ 0 := by
      intro h0
      rw [h j, h0] at hpj
      simp at hpj
    have hratio : Real.exp ((l i - l j : ℚ) : ℝ) = ((q i / q j : ℚ) : ℝ) := by
      push_cast
      rw [Real.exp_sub, ← softmax4_div (fun i => ((l i : ℚ) : ℝ)) i j, h i, h j]
    exact sub_eq_zero.mp (rat_eq_zero_of_exp_eq_rat hratio)
  intro i
  have hfeq : (fun j => ((l j : ℚ) : ℝ)) = fun _ => ((l 0 : ℚ) : ℝ) := by
    funext j
    exact_mod_cast congrArg (fun z : ℚ => (z : ℝ)) (heq j 0)
  rw [hfeq, softmax4_const]

/-! ## Lemmas on argmax -/

theorem argmax4_eq_one (p : Fin 4 → ℝ) (h0 : p 0 < p 1) (h2 : p 2 ≤ p 1)
    (h3 : p 3 ≤ p 1) : argmax4 p = 1 := by
  rw [argmax4, if_neg (fun h => absurd h.1 (not_le.mpr h0)), if_pos ⟨h2, h3⟩]

theorem argmax4_eq_three (p : Fin 4 → ℝ) (h0 : p 0 < p 3) (h1 : p 1 < p 3)
    (h2 : p 2 < p 3) : argmax4 p = 3 := by
  rw [argmax4, if_neg (fun h => absurd h.2.2 (not_le.mpr h0)),
    if_neg (fun h => absurd h.2 (not_le.mpr h1)), if_neg (not_le.mpr h2)]

/-! ## Slot and logit evaluation helpers -/

theorem langFeatures_zero (t : String) : langFeatures t 0 = latinRatio t := rfl

theorem langFeatures_one (t : String) : langFeatures t 1 = devanagariRatio t := rfl

theorem langFeatures_two (t : String) : langFeatures t 2 = (tildeCount t : ℚ) := rfl

theorem langFeatures_three (t : String) : langFeatures t 3 = (exclaimCount t : ℚ) := rfl

theorem langFeatures_four (t : String) : langFeatures t 4 = lengthNorm (langN t) := rfl

theorem langFeatures_five (t : String) : langFeatures t 5 = hinglishKwRatio t := rfl

theorem langW_row0 : langW 0 = ![2, -2, 0.2, 0.3, 0.1, -0.2] := rfl

theorem langW_row1 : langW 1 = ![-2, 3, 0, 0, 0.1, -0.5] := rfl

theorem langW_row2 : langW 2 = ![1.5, -2, 1.2, 0, 0.1, -0.2] := rfl

theorem langW_row3 : langW 3 = ![1.5, -1.5, 0, 0.1, 0.1, 2.5] := rfl

theorem langLogits_eval (text : String) (i : Fin 4) :
    langLogits text i = langW i 0 * langFeatures text 0 +
      langW i 1 * langFeatures text 1 + langW i 2 * langFeatures text 2 +
      langW i 3 * langFeatures text 3 + langW i 4 * langFeatures text 4 +
      langW i 5 * langFeatures text 5 := by
  show (∑ j, langW i j * langFeatures text j) = _
  exact Fin.sum_univ_six _

theorem langProbs_def (text : String) :
    langProbs text = softmax4 (fun i => ((langLogits text i : ℚ) : ℝ)) := rfl

theorem langProbs_sum (text : String) :
    langProbs text 0 + langProbs text 1 + langProbs text 2 + langProbs text 3 = 1 := by
  have h := softmax4_sum (fun i => ((langLogits text i : ℚ) : ℝ))
  rw [Fin.sum_univ_four] at h
  exact h

theorem detect_language_label (text : String) :
    (detect_language text).1 = LANG_LABELS (argmax4 (langProbs text)) := rfl

theorem detect_language_score (text : String) (i : Fin 4) :
    (detect_language text).2 i = round3 (langProbs text i) := rfl

/-! ## Claim theorems -/

/-- C1: for every input text (and any once-per-process weights), `predict_params`
returns a pair with both components in the closed interval `[0.5, 2.0]`, each an exact
multiple of `1/100` (rounded to 2 decimal digits). -/
theorem predict_params_range (W : PitchRateWeights) (text : String) :
    1 / 2 ≤ (predict_params W text).1 ∧ (predict_params W text).1 ≤ 2 ∧
    (∃ k : ℤ, (predict_params W text).1 = (k : ℝ) / 100) ∧
    1 / 2 ≤ (predict_params W text).2 ∧ (predict_params W text).2 ≤ 2 ∧
    (∃ k : ℤ, (predict_params W text).2 = (k : ℝ) / 100) := by
  have key : ∀ z : ℝ, 1 / 2 ≤ round2 (0.5 + sigmoid z * 1.5) ∧
      round2 (0.5 + sigmoid z * 1.5) ≤ 2 ∧
      ∃ k : ℤ, round2 (0.5 + sigmoid z * 1.5) = (k : ℝ) / 100 := by
    intro z
    have h1 := sigmoid_pos z
    have h2 := sigmoid_lt_one z
    exact round2_mem (by nlinarith) (by nlinarith)
  exact ⟨(key _).1, (key _).2.1, (key _).2.2, (key _).1, (key _).2.1, (key _).2.2⟩

/-- C3: `detect_language ""` returns each score equal to `0.25` (the uniform
distribution over the four labels) and the label `en`: all four probabilities tie and
the argmax takes the lowest class index. -/
theorem detect_language_empty_uniform :
    (detect_language "").1 = "en" ∧ ∀ i, (detect_language "").2 i = 1 / 4 := by
  have hlat : latinRatio "" = 0 := by
    rw [latinRatio, show "".data.countP isLatinLetter = 0 from by decide]
    norm_num
  have hdev : devanagariRatio "" = 0 := by
    rw [devanagariRatio, show "".data.countP isDevanagari = 0 from by decide]
    norm_num
  have htil : tildeCount "" = 0 := by decide
  have hexc : exclaimCount "" = 0 := by decide
  have hlen : lengthNorm (langN "") = 1 / 200 := by
    rw [show langN "" = 1 from by decide, lengthNorm]
    norm_num
  have hkw : hinglishKwRatio "" = 0 := by
    rw [hinglishKwRatio, if_pos (by decide)]
  have h2' : langFeatures "" 2 = 0 := by
    show ((tildeCount "" : ℕ) : ℚ) = 0
    rw [htil]
    norm_num
  have h3' : langFeatures "" 3 = 0 := by
    show ((exclaimCount "" : ℕ) : ℚ) = 0
    rw [hexc]
    norm_num
  have hlog : ∀ i, langLogits "" i = 1 / 2000 := by
    intro i
    have hs : langLogits "" i = langW i 0 * langFeatures "" 0 +
        langW i 1 * langFeatures "" 1 + langW i 2 * langFeatures "" 2 +
        langW i 3 * langFeatures "" 3 + langW i 4 * langFeatures "" 4 +
        langW i 5 * langFeatures "" 5 := by
      show (∑ j, langW i j * langFeatures "" j) = _
      exact Fin.sum_univ_six _
    rw [hs, show langFeatures "" 0 = 0 from hlat, show langFeatures "" 1 = 0 from hdev,
      h2', h3', show langFeatures "" 4 = 1 / 200 from hlen,
      show langFeatures "" 5 = 0 from hkw]
    have hW4 : langW i 4 = (0.1 : ℚ) := by fin_cases i <;> rfl
    rw [hW4]
    norm_num
  have hfeq : (fun i => ((langLogits "" i : ℚ) : ℝ)) =
      fun _ => (((1 : ℚ) / 2000 : ℚ) : ℝ) := by
    funext j
    rw [hlog j]
  have hprob : ∀ i, langProbs "" i = 1 / 4 := by
    intro i
    show softmax4 (fun i => ((langLogits "" i : ℚ) : ℝ)) i = 1 / 4
    rw [hfeq, softmax4_const]
  constructor
  · show LANG_LABELS (argmax4 (langProbs "")) = "en"
    rw [show argmax4 (langProbs "") = 0 from by
      rw [argmax4, if_pos ⟨by simp [hprob], by simp [hprob], by simp [hprob]⟩]]
    rfl
  · intro i
    show round3 (langProbs "" i) = 1 / 4
    rw [hprob i, show ((1:ℝ) / 4) = ((250 : ℤ) : ℝ) / 1000 from by norm_num, round3_int]

/-- C4 counterexample: the language extractor does not return the all-zero vector on
`""`: its `length_norm` slot is `min(max(0,1)/200, 1) = 1/200 ≠ 0`. -/
theorem lang_features_empty_not_all_zero :
    langFeatures "" 4 = 1 / 200 ∧ (1 / 200 : ℚ) ≠ 0 := by
  constructor
  · show lengthNorm (langN "") = 1 / 200
    rw [show langN "" = 1 from by decide, lengthNorm]
    norm_num
  · norm_num

/-- C4 as amended: both extractors are total (by construction); on `""` the pitch/rate
extractor returns `[0,0,0]`, while the language extractor returns
`[0, 0, 0, 0, 1/200, 0]` — every slot zero except `length_norm`, which is `0.005`
because `n = max(len, 1) = 1`. -/
theorem feature_extractors_on_empty :
    (∀ i, textFeatures "" i = 0) ∧
    langFeatures "" 0 = 0 ∧ langFeatures "" 1 = 0 ∧ langFeatures "" 2 = 0 ∧
    langFeatures "" 3 = 0 ∧ langFeatures "" 4 = 1 / 200 ∧ langFeatures "" 5 = 0 := by
  refine ⟨by decide, ?_, ?_, ?_, ?_, ?_, ?_⟩
  · show latinRatio "" = 0
    rw [latinRatio, show "".data.countP isLatinLetter = 0 from by decide]
    norm_num
  · show devanagariRatio "" = 0
    rw [devanagariRatio, show "".data.countP isDevanagari = 0 from by decide]
    norm_num
  · show ((tildeCount "" : ℕ) : ℚ) = 0
    rw [show tildeCount "" = 0 from by decide]
    norm_num
  · show ((exclaimCount "" : ℕ) : ℚ) = 0
    rw [show exclaimCount "" = 0 from by decide]
    norm_num
  · show lengthNorm (langN "") = 1 / 200
    rw [show langN "" = 1 from by decide, lengthNorm]
    norm_num
  · show hinglishKwRatio "" = 0
    rw [hinglishKwRatio, if_pos (by decide)]

/-- C7 counterexample: on the one-character input `"Ñ"` the code's `latin_ratio` is `0`,
while the claimed case-insensitive count would give `1/1 = 1`. -/
theorem latin_ratio_uppercase_counterexample :
    latinRatio "Ñ" = 0 ∧ (latinCountClaimed "Ñ" : ℚ) / langN "Ñ" = 1 ∧ (0 : ℚ) ≠ 1 := by
  refine ⟨?_, ?_, by norm_num⟩
  · rw [latinRatio, show "Ñ".data.countP isLatinLetter = 0 from by decide]
    norm_num
  · rw [show latinCountClaimed "Ñ" = 1 from by decide, show langN "Ñ" = 1 from by decide]
    norm_num

/-- C7 as amended: `latin_ratio` counts ASCII letters case-insensitively, but of the six
accented letters only the lowercase forms `á é í ó ú ü ñ` — uppercase accented forms
such as `Á` or `Ñ` are not counted — divided by `n = max(len, 1)`. -/
theorem latin_ratio_characterization (text : String) :
    latinRatio text = (text.data.countP (fun c =>
      ('a' ≤ pyLower c ∧ pyLower c ≤ 'z') ∨ c ∈ ['á', 'é', 'í', 'ó', 'ú', 'ü', 'ñ']) : ℚ) /
      (max text.data.length 1 : ℕ) ∧
    latinRatio "A" = 1 ∧ latinRatio "a" = 1 ∧ latinRatio "á" = 1 ∧
    latinRatio "Á" = 0 ∧ latinRatio "ñ" = 1 ∧ latinRatio "Ñ" = 0 := by
  refine ⟨rfl, ?_, ?_, ?_, ?_, ?_, ?_⟩ <;>
    first
    | (rw [latinRatio, show "A".data.countP isLatinLetter = 1 from by decide,
        show langN "A" = 1 from by decide]; norm_num)
    | (rw [latinRatio, show "a".data.countP isLatinLetter = 1 from by decide,
        show langN "a" = 1 from by decide]; norm_num)
    | (rw [latinRatio, show "á".data.countP isLatinLetter = 1 from by decide,
        show langN "á" = 1 from by decide]; norm_num)
    | (rw [latinRatio, show "Á".data.countP isLatinLetter = 0 from by decide,
        show langN "Á" = 1 from by decide]; norm_num)
    | (rw [latinRatio, show "ñ".data.countP isLatinLetter = 1 from by decide,
        show langN "ñ" = 1 from by decide]; norm_num)
    | (rw [latinRatio, show "Ñ".data.countP isLatinLetter = 0 from by decide,
        show langN "Ñ" = 1 from by decide]; norm_num)

/-- C8 counterexample: the `exclaim_count` slot is not confined to the unit bound that
holds for every ratio/norm slot: on the concrete input of ten exclamation marks it
equals `10` (and `exclaim_count_unbounded` below shows it exceeds any fixed bound). -/
theorem exclaim_count_exceeds_unit_bound :
    langFeatures "!!!!!!!!!!" 3 = 10 ∧ (1 : ℚ) < 10 := by
  constructor
  · rw [langFeatures_three, show exclaimCount "!!!!!!!!!!" = 10 from by decide]
    norm_num
  · norm_num

/-- No input-independent bound exists for the `exclaim_count` feature slot: for any
proposed bound `B`, the string of `⌈B⌉ + 1` exclamation marks drives the slot above
`B`. -/
theorem exclaim_count_unbounded (B : ℚ) : ∃ text : String, B < langFeatures text 3 := by
  refine ⟨String.mk (List.replicate (⌈B⌉.toNat + 1) '!'), ?_⟩
  show B < ((exclaimCount (String.mk (List.replicate (⌈B⌉.toNat + 1) '!')) : ℕ) : ℚ)
  have h : exclaimCount (String.mk (List.replicate (⌈B⌉.toNat + 1) '!')) =
      ⌈B⌉.toNat + 1 := by
    rw [exclaimCount]
    exact countP_replicate _ '!' (by decide) _
  rw [h]
  have h1 : B ≤ (⌈B⌉ : ℚ) := Int.le_ceil B
  have h2 : (⌈B⌉ : ℚ) ≤ ((⌈B⌉.toNat : ℕ) : ℚ) := by
    exact_mod_cast Int.self_le_toNat ⌈B⌉
  push_cast
  linarith

/-- C8 as amended: every ratio/norm slot of both extractors lies in `[0, 1]` for every
input; the two literal counts `tilde_count` and `exclaim_count` are nonnegative and
bounded by the length of the input — a bound that grows with the input, not a fixed
one. -/
theorem feature_slots_bounded (text : String) :
    (∀ i, 0 ≤ textFeatures text i ∧ textFeatures text i ≤ 1) ∧
    (∀ i, 0 ≤ langFeatures text i) ∧
    langFeatures text 0 ≤ 1 ∧ langFeatures text 1 ≤ 1 ∧
    langFeatures text 4 ≤ 1 ∧ langFeatures text 5 ≤ 1 ∧
    langFeatures text 2 ≤ (text.data.length : ℚ) ∧
    langFeatures text 3 ≤ (text.data.length : ℚ) := by
  have hlat := ratio_bounds (text.data.countP isLatinLetter) text.data.length
    (List.countP_le_length _)
  have hdev := ratio_bounds (text.data.countP isDevanagari) text.data.length
    (List.countP_le_length _)
  have hlen := lengthNorm_bounds (langN text)
  have hkw : 0 ≤ hinglishKwRatio text ∧ hinglishKwRatio text ≤ 1 := by
    rw [hinglishKwRatio]
    split_ifs
    · norm_num
    · exact ratio_bounds _ _ (List.countP_le_length _)
  have htil : (0 : ℚ) ≤ (tildeCount text : ℚ) ∧
      (tildeCount text : ℚ) ≤ (text.data.length : ℚ) := by
    constructor
    · positivity
    · exact_mod_cast List.countP_le_length (l := text.data)
        (p := fun c => decide (c = 'ñ' ∨ c = 'Ñ'))
  have hexc : (0 : ℚ) ≤ (exclaimCount text : ℚ) ∧
      (exclaimCount text : ℚ) ≤ (text.data.length : ℚ) := by
    constructor
    · positivity
    · exact_mod_cast List.countP_le_length (l := text.data)
        (p := fun c => decide (c = '!'))
  refine ⟨?_, ?_, hlat.2, hdev.2, hlen.2, hkw.2, htil.2, hexc.2⟩
  · intro i
    rw [textFeatures]
    split_ifs with hempty
    · fin_cases i <;> norm_num
    · have hpos : 0 < text.data.length := Nat.pos_of_ne_zero hempty
      have hvow : 0 ≤ vowelRatio text ∧ vowelRatio text ≤ 1 := by
        rw [vowelRatio]
        constructor
        · positivity
        · rw [div_le_one (by exact_mod_cast hpos)]
          exact_mod_cast List.countP_le_length (l := text.data) (p := isVowel)
      have hpun : 0 ≤ punctRatio text ∧ punctRatio text ≤ 1 := by
        rw [punctRatio]
        constructor
        · positivity
        · rw [div_le_one (by exact_mod_cast hpos)]
          exact_mod_cast List.countP_le_length (l := text.data) (p := isPunct)
      have hln := lengthNorm_bounds text.data.length
      fin_cases i
      · exact hln
      · exact hvow
      · exact hpun
  · intro i
    fin_cases i
    · exact hlat.1
    · exact hdev.1
    · exact htil.1
    · exact hexc.1
    · exact hlen.1
    · exact hkw.1

/-- C9: within one process, the two public functions are pure state transitions: each
call leaves the process state (the weight tensors) unchanged, and repeating a call —
also after interleaving with the other function — returns the identical result. -/
theorem repeated_calls_identical (s : ProcState) (text : String) :
    (callPredictParams s text).2 = s ∧ (callDetectLanguage s text).2 = s ∧
    (callPredictParams (callPredictParams s text).2 text).1 =
      (callPredictParams s text).1 ∧
    (callDetectLanguage (callDetectLanguage s text).2 text).1 =
      (callDetectLanguage s text).1 ∧
    (callPredictParams (callDetectLanguage s text).2 text).1 =
      (callPredictParams s text).1 ∧
    (callDetectLanguage (callPredictParams s text).2 text).1 =
      (callDetectLanguage s text).1 :=
  ⟨rfl, rfl, rfl, rfl, rfl, rfl⟩

/-- C10: both public functions accept `None` in place of a string (each feature
extractor first normalizes its input via `text or ""`) and then behave exactly as on
the empty string. -/
theorem none_input_as_empty (W : PitchRateWeights) :
    predict_paramsOpt W none = predict_params W "" ∧
    detect_languageOpt none = detect_language "" ∧
    predict_paramsOpt W (some "") = predict_paramsOpt W none ∧
    detect_languageOpt (some "") = detect_languageOpt none :=
  ⟨rfl, rfl, rfl, rfl⟩



/-- C5 counterexample: on `"yaar kya haal hai"` only 3 of the 4 tokens match the
Hinglish lexicon (`haal` is not in it), so `hinglish_kw_ratio` is `3/4`, not `1`. -/
theorem hinglish_ratio_counterexample :
    langFeatures "yaar kya haal hai" 5 = 3 / 4 ∧ (3 / 4 : ℚ) ≠ 1 := by
  constructor
  · rw [langFeatures_five, hinglishKwRatio, if_neg (by decide),
      show (tokenize "yaar kya haal hai".data).countP
        (fun w => hinglishKw.contains (String.mk w)) = 3 from by decide,
      show (tokenize "yaar kya haal hai".data).length = 4 from by decide]
    norm_num
  · norm_num

/-- C5 as amended: on `"yaar kya haal hai"`, 3 of the 4 whitespace-delimited tokens
match the Hinglish lexicon (`yaar`, `kya`, `hai`; `haal` does not), so
`hinglish_kw_ratio = 0.75`; `devanagari_ratio = 0`; and `detect_language` still returns
the label `hinglish`. -/
theorem detect_language_hinglish :
    langFeatures "yaar kya haal hai" 5 = 3 / 4 ∧
    langFeatures "yaar kya haal hai" 1 = 0 ∧
    (detect_language "yaar kya haal hai").1 = "hinglish" := by
  have hlat : latinRatio "yaar kya haal hai" = 14 / 17 := by
    rw [latinRatio, show "yaar kya haal hai".data.countP isLatinLetter = 14 from by decide,
      show langN "yaar kya haal hai" = 17 from by decide]
    norm_num
  have hdev : devanagariRatio "yaar kya haal hai" = 0 := by
    rw [devanagariRatio,
      show "yaar kya haal hai".data.countP isDevanagari = 0 from by decide]
    norm_num
  have htil : (tildeCount "yaar kya haal hai" : ℚ) = 0 := by
    rw [show tildeCount "yaar kya haal hai" = 0 from by decide]
    norm_num
  have hexc : (exclaimCount "yaar kya haal hai" : ℚ) = 0 := by
    rw [show exclaimCount "yaar kya haal hai" = 0 from by decide]
    norm_num
  have hlen : lengthNorm (langN "yaar kya haal hai") = 17 / 200 := by
    rw [show langN "yaar kya haal hai" = 17 from by decide, lengthNorm]
    norm_num
  have hkw : hinglishKwRatio "yaar kya haal hai" = 3 / 4 := by
    rw [hinglishKwRatio, if_neg (by decide),
      show (tokenize "yaar kya haal hai".data).countP
        (fun w => hinglishKw.contains (String.mk w)) = 3 from by decide,
      show (tokenize "yaar kya haal hai".data).length = 4 from by decide]
    norm_num
  have hl0 : langLogits "yaar kya haal hai" 0 = 51189 / 34000 := by
    rw [langLogits_eval, langFeatures_zero, langFeatures_one, langFeatures_two,
      langFeatures_three, langFeatures_four, langFeatures_five,
      hlat, hdev, htil, hexc, hlen, hkw, langW_row0,
      vec6_zero, vec6_one, vec6_two, vec6_three, vec6_four, vec6_five]
    norm_num
  have hl1 : langLogits "yaar kya haal hai" 1 = -(68461 / 34000) := by
    rw [langLogits_eval, langFeatures_zero, langFeatures_one, langFeatures_two,
      langFeatures_three, langFeatures_four, langFeatures_five,
      hlat, hdev, htil, hexc, hlen, hkw, langW_row1,
      vec6_zero, vec6_one, vec6_two, vec6_three, vec6_four, vec6_five]
    norm_num
  have hl2 : langLogits "yaar kya haal hai" 2 = 37189 / 34000 := by
    rw [langLogits_eval, langFeatures_zero, langFeatures_one, langFeatures_two,
      langFeatures_three, langFeatures_four, langFeatures_five,
      hlat, hdev, htil, hexc, hlen, hkw, langW_row2,
      vec6_zero, vec6_one, vec6_two, vec6_three, vec6_four, vec6_five]
    norm_num
  have hl3 : langLogits "yaar kya haal hai" 3 = 106039 / 34000 := by
    rw [langLogits_eval, langFeatures_zero, langFeatures_one, langFeatures_two,
      langFeatures_three, langFeatures_four, langFeatures_five,
      hlat, hdev, htil, hexc, hlen, hkw, langW_row3,
      vec6_zero, vec6_one, vec6_two, vec6_three, vec6_four, vec6_five]
    norm_num
  have hp0 : langProbs "yaar kya haal hai" 0 < langProbs "yaar kya haal hai" 3 := by
    rw [langProbs_def]
    refine softmax4_lt _ ?_
    have h : langLogits "yaar kya haal hai" 0 < langLogits "yaar kya haal hai" 3 := by
      rw [hl0, hl3]
      norm_num
    exact_mod_cast h
  have hp1 : langProbs "yaar kya haal hai" 1 < langProbs "yaar kya haal hai" 3 := by
    rw [langProbs_def]
    refine softmax4_lt _ ?_
    have h : langLogits "yaar kya haal hai" 1 < langLogits "yaar kya haal hai" 3 := by
      rw [hl1, hl3]
      norm_num
    exact_mod_cast h
  have hp2 : langProbs "yaar kya haal hai" 2 < langProbs "yaar kya haal hai" 3 := by
    rw [langProbs_def]
    refine softmax4_lt _ ?_
    have h : langLogits "yaar kya haal hai" 2 < langLogits "yaar kya haal hai" 3 := by
      rw [hl2, hl3]
      norm_num
    exact_mod_cast h
  refine ⟨by rw [langFeatures_five]; exact hkw, by rw [langFeatures_one]; exact hdev, ?_⟩
  rw [detect_language_label, argmax4_eq_three _ hp0 hp1 hp2]
  rfl

/-- C6: on `"नमस्ते"` (all six characters in the Devanagari block) the language
extractor yields `devanagari_ratio = 1` and `latin_ratio = 0`, and `detect_language`
returns the label `hi`, whose (rounded) score is strictly greater than each of the
other three scores. -/
theorem detect_language_devanagari :
    langFeatures "नमस्ते" 1 = 1 ∧ langFeatures "नमस्ते" 0 = 0 ∧
    (detect_language "नमस्ते").1 = "hi" ∧
    (detect_language "नमस्ते").2 0 < (detect_language "नमस्ते").2 1 ∧
    (detect_language "नमस्ते").2 2 < (detect_language "नमस्ते").2 1 ∧
    (detect_language "नमस्ते").2 3 < (detect_language "नमस्ते").2 1 := by
  have hlat : latinRatio "नमस्ते" = 0 := by
    rw [latinRatio, show "नमस्ते".data.countP isLatinLetter = 0 from by decide]
    norm_num
  have hdev : devanagariRatio "नमस्ते" = 1 := by
    rw [devanagariRatio, show "नमस्ते".data.countP isDevanagari = 6 from by decide,
      show langN "नमस्ते" = 6 from by decide]
    norm_num
  have htil : (tildeCount "नमस्ते" : ℚ) = 0 := by
    rw [show tildeCount "नमस्ते" = 0 from by decide]
    norm_num
  have hexc : (exclaimCount "नमस्ते" : ℚ) = 0 := by
    rw [show exclaimCount "नमस्ते" = 0 from by decide]
    norm_num
  have hlen : lengthNorm (langN "नमस्ते") = 3 / 100 := by
    rw [show langN "नमस्ते" = 6 from by decide, lengthNorm]
    norm_num
  have hkw : hinglishKwRatio "नमस्ते" = 0 := by
    rw [hinglishKwRatio, if_neg (by decide),
      show (tokenize "नमस्ते".data).countP
        (fun w => hinglishKw.contains (String.mk w)) = 0 from by decide]
    norm_num
  have hl0 : langLogits "नमस्ते" 0 = -(1997 / 1000) := by
    rw [langLogits_eval, langFeatures_zero, langFeatures_one, langFeatures_two,
      langFeatures_three, langFeatures_four, langFeatures_five,
      hlat, hdev, htil, hexc, hlen, hkw, langW_row0,
      vec6_zero, vec6_one, vec6_two, vec6_three, vec6_four, vec6_five]
    norm_num
  have hl1 : langLogits "नमस्ते" 1 = 3003 / 1000 := by
    rw [langLogits_eval, langFeatures_zero, langFeatures_one, langFeatures_two,
      langFeatures_three, langFeatures_four, langFeatures_five,
      hlat, hdev, htil, hexc, hlen, hkw, langW_row1,
      vec6_zero, vec6_one, vec6_two, vec6_three, vec6_four, vec6_five]
    norm_num
  have hl2 : langLogits "नमस्ते" 2 = -(1997 / 1000) := by
    rw [langLogits_eval, langFeatures_zero, langFeatures_one, langFeatures_two,
      langFeatures_three, langFeatures_four, langFeatures_five,
      hlat, hdev, htil, hexc, hlen, hkw, langW_row2,
      vec6_zero, vec6_one, vec6_two, vec6_three, vec6_four, vec6_five]
    norm_num
  have hl3 : langLogits "नमस्ते" 3 = -(1497 / 1000) := by
    rw [langLogits_eval, langFeatures_zero, langFeatures_one, langFeatures_two,
      langFeatures_three, langFeatures_four, langFeatures_five,
      hlat, hdev, htil, hexc, hlen, hkw, langW_row3,
      vec6_zero, vec6_one, vec6_two, vec6_three, vec6_four, vec6_five]
    norm_num
  have hub : ∀ j : Fin 4, langLogits "नमस्ते" j - langLogits "नमस्ते" 1 ≤ -4 →
      langProbs "नमस्ते" j ≤ 34 / 1000 := by
    intro j hj
    have h1 : langProbs "नमस्ते" j ≤
        Real.exp (((langLogits "नमस्ते" j : ℚ) : ℝ) -
          ((langLogits "नमस्ते" 1 : ℚ) : ℝ)) := by
      rw [langProbs_def]
      exact softmax4_le_exp_sub _ j 1
    have h2 : ((langLogits "नमस्ते" j : ℚ) : ℝ) -
        ((langLogits "नमस्ते" 1 : ℚ) : ℝ) ≤ -4 := by
      have h3 : ((langLogits "नमस्ते" j - langLogits "नमस्ते" 1 : ℚ) : ℝ) ≤
          ((-4 : ℚ) : ℝ) := by
        exact_mod_cast hj
      push_cast at h3
      linarith
    calc langProbs "नमस्ते" j ≤ _ := h1
      _ ≤ 34 / 1000 := exp_le_of_le_neg_four h2
  have hb0 : langProbs "नमस्ते" 0 ≤ 34 / 1000 := hub 0 (by rw [hl0, hl1]; norm_num)
  have hb2 : langProbs "नमस्ते" 2 ≤ 34 / 1000 := hub 2 (by rw [hl2, hl1]; norm_num)
  have hb3 : langProbs "नमस्ते" 3 ≤ 34 / 1000 := hub 3 (by rw [hl3, hl1]; norm_num)
  have hsum := langProbs_sum "नमस्ते"
  have hb1 : 898 / 1000 ≤ langProbs "नमस्ते" 1 := by linarith
  have hs0 : (detect_language "नमस्ते").2 0 ≤ 34 / 1000 := by
    rw [detect_language_score,
      show (34 : ℝ) / 1000 = ((34 : ℤ) : ℝ) / 1000 from by norm_num]
    calc round3 (langProbs "नमस्ते" 0) ≤ round3 (((34 : ℤ) : ℝ) / 1000) :=
        round3_mono (by push_cast; linarith)
      _ = ((34 : ℤ) : ℝ) / 1000 := round3_int 34
  have hs2 : (detect_language "नमस्ते").2 2 ≤ 34 / 1000 := by
    rw [detect_language_score,
      show (34 : ℝ) / 1000 = ((34 : ℤ) : ℝ) / 1000 from by norm_num]
    calc round3 (langProbs "नमस्ते" 2) ≤ round3 (((34 : ℤ) : ℝ) / 1000) :=
        round3_mono (by push_cast; linarith)
      _ = ((34 : ℤ) : ℝ) / 1000 := round3_int 34
  have hs3 : (detect_language "नमस्ते").2 3 ≤ 34 / 1000 := by
    rw [detect_language_score,
      show (34 : ℝ) / 1000 = ((34 : ℤ) : ℝ) / 1000 from by norm_num]
    calc round3 (langProbs "नमस्ते" 3) ≤ round3 (((34 : ℤ) : ℝ) / 1000) :=
        round3_mono (by push_cast; linarith)
      _ = ((34 : ℤ) : ℝ) / 1000 := round3_int 34
  have hs1 : 898 / 1000 ≤ (detect_language "नमस्ते").2 1 := by
    rw [detect_language_score]
    calc (898 : ℝ) / 1000 = round3 (((898 : ℤ) : ℝ) / 1000) := by
          rw [round3_int]
          norm_num
      _ ≤ round3 (langProbs "नमस्ते" 1) := round3_mono (by push_cast; linarith)
  refine ⟨by rw [langFeatures_one]; exact hdev, by rw [langFeatures_zero]; exact hlat,
    ?_, by linarith, by linarith, by linarith⟩
  rw [detect_language_label, argmax4_eq_one _ (by linarith) (by linarith) (by linarith)]
  rfl

set_option maxHeartbeats 1600000 in
/-- C2: for every input text, the scores mapping of `detect_language` (four values, one
per label) has every value in `[0, 1]`, the sum of the four values within `1e-3` of `1`,
and the returned label names a class whose score attains the maximum of the mapping. -/
theorem detect_language_scores_spec (text : String) :
    (∀ i, 0 ≤ (detect_language text).2 i ∧ (detect_language text).2 i ≤ 1) ∧
    |(∑ i, (detect_language text).2 i) - 1| ≤ 1 / 1000 ∧
    ∃ i : Fin 4, (detect_language text).1 = LANG_LABELS i ∧
      ∀ j, (detect_language text).2 j ≤ (detect_language text).2 i := by
  have hpos : ∀ i, 0 < langProbs text i := by
    intro i
    rw [langProbs_def]
    exact softmax4_pos _ i
  have hlt1 : ∀ i, langProbs text i < 1 := by
    intro i
    rw [langProbs_def]
    exact softmax4_lt_one _ i
  have part1 : ∀ i, 0 ≤ (detect_language text).2 i ∧ (detect_language text).2 i ≤ 1 := by
    intro i
    rw [detect_language_score]
    exact round3_bounds (hpos i).le (hlt1 i).le
  have part3 : ∃ i : Fin 4, (detect_language text).1 = LANG_LABELS i ∧
      ∀ j, (detect_language text).2 j ≤ (detect_language text).2 i := by
    refine ⟨argmax4 (langProbs text), detect_language_label text, ?_⟩
    intro j
    rw [detect_language_score, detect_language_score]
    exact round3_mono (argmax4_spec (langProbs text) j)
  refine ⟨part1, ?_, part3⟩
  have hsum := langProbs_sum text
  have ha0 := le_rhe (1000 * langProbs text 0)
  have ha1 := le_rhe (1000 * langProbs text 1)
  have ha2 := le_rhe (1000 * langProbs text 2)
  have ha3 := le_rhe (1000 * langProbs text 3)
  have hb0 := rhe_le (1000 * langProbs text 0)
  have hb1 := rhe_le (1000 * langProbs text 1)
  have hb2 := rhe_le (1000 * langProbs text 2)
  have hb3 := rhe_le (1000 * langProbs text 3)
  have hsumscore : (∑ i, (detect_language text).2 i) =
      ((rhe (1000 * langProbs text 0) + rhe (1000 * langProbs text 1) +
        rhe (1000 * langProbs text 2) + rhe (1000 * langProbs text 3) : ℤ) : ℝ) / 1000 := by
    rw [Fin.sum_univ_four]
    simp only [detect_language_score, round3]
    push_cast
    ring
  have hMlow : (998 : ℤ) ≤ rhe (1000 * langProbs text 0) + rhe (1000 * langProbs text 1) +
      rhe (1000 * langProbs text 2) + rhe (1000 * langProbs text 3) := by
    have h : (998 : ℝ) ≤ ((rhe (1000 * langProbs text 0) + rhe (1000 * langProbs text 1) +
        rhe (1000 * langProbs text 2) + rhe (1000 * langProbs text 3) : ℤ) : ℝ) := by
      push_cast
      linarith
    exact_mod_cast h
  have hMhigh : rhe (1000 * langProbs text 0) + rhe (1000 * langProbs text 1) +
      rhe (1000 * langProbs text 2) + rhe (1000 * langProbs text 3) ≤ 1002 := by
    have h : ((rhe (1000 * langProbs text 0) + rhe (1000 * langProbs text 1) +
        rhe (1000 * langProbs text 2) + rhe (1000 * langProbs text 3) : ℤ) : ℝ) ≤ 1002 := by
      push_cast
      linarith
    exact_mod_cast h
  have hnot1002 : rhe (1000 * langProbs text 0) + rhe (1000 * langProbs text 1) +
      rhe (1000 * langProbs text 2) + rhe (1000 * langProbs text 3) ≠ 1002 := by
    intro hMeq
    have hcast : ((rhe (1000 * langProbs text 0) : ℤ) : ℝ) +
        ((rhe (1000 * langProbs text 1) : ℤ) : ℝ) +
        ((rhe (1000 * langProbs text 2) : ℤ) : ℝ) +
        ((rhe (1000 * langProbs text 3) : ℤ) : ℝ) = 1002 := by
      exact_mod_cast congrArg (fun z : ℤ => (z : ℝ)) hMeq
    have he0 : ((rhe (1000 * langProbs text 0) : ℤ) : ℝ) - 1000 * langProbs text 0 =
        1 / 2 := by linarith
    have he1 : ((rhe (1000 * langProbs text 1) : ℤ) : ℝ) - 1000 * langProbs text 1 =
        1 / 2 := by linarith
    have he2 : ((rhe (1000 * langProbs text 2) : ℤ) : ℝ) - 1000 * langProbs text 2 =
        1 / 2 := by linarith
    have he3 : ((rhe (1000 * langProbs text 3) : ℤ) : ℝ) - 1000 * langProbs text 3 =
        1 / 2 := by linarith
    have hfun : ∀ i, softmax4 (fun i => ((langLogits text i : ℚ) : ℝ)) i =
        ((![(((rhe (1000 * langProbs text 0) : ℤ) : ℚ) - 1 / 2) / 1000,
            (((rhe (1000 * langProbs text 1) : ℤ) : ℚ) - 1 / 2) / 1000,
            (((rhe (1000 * langProbs text 2) : ℤ) : ℚ) - 1 / 2) / 1000,
            (((rhe (1000 * langProbs text 3) : ℤ) : ℚ) - 1 / 2) / 1000] i : ℚ) : ℝ) := by
      intro i
      fin_cases i
      · show langProbs text 0 = (((((rhe (1000 * langProbs text 0) : ℤ) : ℚ) - 1 / 2) /
            1000 : ℚ) : ℝ)
        push_cast
        linarith
      · show langProbs text 1 = (((((rhe (1000 * langProbs text 1) : ℤ) : ℚ) - 1 / 2) /
            1000 : ℚ) : ℝ)
        push_cast
        linarith
      · show langProbs text 2 = (((((rhe (1000 * langProbs text 2) : ℤ) : ℚ) - 1 / 2) /
            1000 : ℚ) : ℝ)
        push_cast
        linarith
      · show langProbs text 3 = (((((rhe (1000 * langProbs text 3) : ℤ) : ℚ) - 1 / 2) /
            1000 : ℚ) : ℝ)
        push_cast
        linarith
    have huni := softmax4_rat_values hfun
    have hp0 : langProbs text 0 = 1 / 4 := huni 0
    have hodd : ((2 * rhe (1000 * langProbs text 0) : ℤ) : ℝ) = 501 := by
      push_cast
      linarith
    have hoddz : (2 * rhe (1000 * langProbs text 0) : ℤ) = 501 := by exact_mod_cast hodd
    omega
  have hnot998 : rhe (1000 * langProbs text 0) + rhe (1000 * langProbs text 1) +
      rhe (1000 * langProbs text 2) + rhe (1000 * langProbs text 3) ≠ 998 := by
    intro hMeq
    have hcast : ((rhe (1000 * langProbs text 0) : ℤ) : ℝ) +
        ((rhe (1000 * langProbs text 1) : ℤ) : ℝ) +
        ((rhe (1000 * langProbs text 2) : ℤ) : ℝ) +
        ((rhe (1000 * langProbs text 3) : ℤ) : ℝ) = 998 := by
      exact_mod_cast congrArg (fun z : ℤ => (z : ℝ)) hMeq
    have he0 : ((rhe (1000 * langProbs text 0) : ℤ) : ℝ) - 1000 * langProbs text 0 =
        -(1 / 2) := by linarith
    have he1 : ((rhe (1000 * langProbs text 1) : ℤ) : ℝ) - 1000 * langProbs text 1 =
        -(1 / 2) := by linarith
    have he2 : ((rhe (1000 * langProbs text 2) : ℤ) : ℝ) - 1000 * langProbs text 2 =
        -(1 / 2) := by linarith
    have he3 : ((rhe (1000 * langProbs text 3) : ℤ) : ℝ) - 1000 * langProbs text 3 =
        -(1 / 2) := by linarith
    have hfun : ∀ i, softmax4 (fun i => ((langLogits text i : ℚ) : ℝ)) i =
        ((![(((rhe (1000 * langProbs text 0) : ℤ) : ℚ) + 1 / 2) / 1000,
            (((rhe (1000 * langProbs text 1) : ℤ) : ℚ) + 1 / 2) / 1000,
            (((rhe (1000 * langProbs text 2) : ℤ) : ℚ) + 1 / 2) / 1000,
            (((rhe (1000 * langProbs text 3) : ℤ) : ℚ) + 1 / 2) / 1000] i : ℚ) : ℝ) := by
      intro i
      fin_cases i
      · show langProbs text 0 = (((((rhe (1000 * langProbs text 0) : ℤ) : ℚ) + 1 / 2) /
            1000 : ℚ) : ℝ)
        push_cast
        linarith
      · show langProbs text 1 = (((((rhe (1000 * langProbs text 1) : ℤ) : ℚ) + 1 / 2) /
            1000 : ℚ) : ℝ)
        push_cast
        linarith
      · show langProbs text 2 = (((((rhe (1000 * langProbs text 2) : ℤ) : ℚ) + 1 / 2) /
            1000 : ℚ) : ℝ)
        push_cast
        linarith
      · show langProbs text 3 = (((((rhe (1000 * langProbs text 3) : ℤ) : ℚ) + 1 / 2) /
            1000 : ℚ) : ℝ)
        push_cast
        linarith
    have huni := softmax4_rat_values hfun
    have hp0 : langProbs text 0 = 1 / 4 := huni 0
    have hodd : ((2 * rhe (1000 * langProbs text 0) : ℤ) : ℝ) = 499 := by
      push_cast
      linarith
    have hoddz : (2 * rhe (1000 * langProbs text 0) : ℤ) = 499 := by exact_mod_cast hodd
    omega
  have hM3 : (999 : ℤ) ≤ rhe (1000 * langProbs text 0) + rhe (1000 * langProbs text 1) +
      rhe (1000 * langProbs text 2) + rhe (1000 * langProbs text 3) ∧
      rhe (1000 * langProbs text 0) + rhe (1000 * langProbs text 1) +
      rhe (1000 * langProbs text 2) + rhe (1000 * langProbs text 3) ≤ 1001 := by
    omega
  rw [hsumscore, abs_le]
  have hc1 : (999 : ℝ) ≤ ((rhe (1000 * langProbs text 0) + rhe (1000 * langProbs text 1) +
      rhe (1000 * langProbs text 2) + rhe (1000 * langProbs text 3) : ℤ) : ℝ) := by
    exact_mod_cast hM3.1
  have hc2 : ((rhe (1000 * langProbs text 0) + rhe (1000 * langProbs text 1) +
      rhe (1000 * langProbs text 2) + rhe (1000 * langProbs text 3) : ℤ) : ℝ) ≤ 1001 := by
    exact_mod_cast hM3.2
  constructor
  · linarith
  · linarith

end T2S
